import Mathlib

/-!
Verification of the column-level SQL lineage tracer in src/Sqlglot.py
(class SQLLineageTracer).

The tracer consumes token trees produced by the external sqlparse library
(an out-of-scope collaborator per the spec).  We model those token trees
with the inductive type Token below, and model the sqlparse accessor
methods that the tracer calls (get_type, get_real_name, get_alias,
get_parent_name, get_name, get_identifiers, get_parameters, token_next_by,
Comparison.left and Comparison.right, str()) after sqlparse 0.4.x.
Atoms carry a token type and a value; sqlparse group classes
(Identifier, IdentifierList, Function, Comparison, Where, Parenthesis,
Operation, Statement) become group kinds.  In sqlparse the keyword token
types DML, DDL and CTE are distinct objects from the plain Keyword type,
so a Python check of the form ttype is Keyword is False on them; the model
keeps them as distinct constructors for that reason.

Python code paths that can only raise (for example indexing an empty token
list) are modeled as harmless defaults; they are unreachable from token
trees that sqlparse actually produces.  Recursive functions that walk the
token tree are written with an explicit fuel argument so that they are
structurally recursive and kernel-reducible; the public wrappers pass the
tree size as fuel, which always suffices since every recursive step moves
to a strictly smaller part of the tree, and the general theorems below are
proved for every fuel value.
-/

/-- Token types of sqlparse that the tracer inspects.  DML, DDL and CTE
are the sqlparse types Keyword.DML, Keyword.DDL and Keyword.CTE, which are
not identical to Keyword under the Python is operator. -/
inductive TType where
  | Keyword
  | DML
  | DDL
  | CTE
  | Wildcard
  | Name
  | Punctuation
  | Whitespace
  | CompOp
  | StrLit
  | NumLit
  deriving DecidableEq, Repr

/-- Grouping classes of sqlparse.sql that the tracer distinguishes with
isinstance checks.  All of them subclass TokenList. -/
inductive GKind where
  | Statement
  | Identifier
  | IdentifierList
  | Function
  | Comparison
  | WhereClause
  | Parenthesis
  | Operation
  deriving DecidableEq, Repr

/-- A sqlparse token: either a leaf token with a type and a string value,
or a grouped token list. -/
inductive Token where
  | atom (ttype : TType) (value : String)
  | group (kind : GKind) (tokens : List Token)

/-- Size of a token tree, used as fuel for the tree-walking functions.
The group case is written so that it reduces to a successor even when the
child list is a variable. -/
def tsize : Token → Nat
  | .atom _ _ => 1
  | .group _ ts => tsizeList ts + 1
where
  tsizeList : List Token → Nat
  | [] => 0
  | t :: ts => tsize t + tsizeList ts

/-- Flattened string value of a token, modeling str(token) in Python. -/
def tokenStr : Token → String
  | .atom _ v => v
  | .group _ ts => strList ts
where
  strList : List Token → String
  | [] => ""
  | t :: ts => tokenStr t ++ strList ts

/-- Child tokens of a token (empty for a leaf). -/
def tokensOf : Token → List Token
  | .atom _ _ => []
  | .group _ ts => ts

/-- ASCII upper-casing of one character, modeling Python str.upper on the
keyword alphabet. -/
def upperChar (c : Char) : Char :=
  if 97 ≤ c.toNat ∧ c.toNat ≤ 122 then Char.ofNat (c.toNat - 32) else c

/-- ASCII upper-casing of a string, modeling value.upper() in the traced
code and token.normalized in sqlparse.  Defined over the character list so
that it evaluates inside the kernel. -/
def upperString (s : String) : String :=
  String.mk (s.data.map upperChar)

/-- Models token.is_whitespace. -/
def Token.isWhitespace : Token → Bool
  | .atom .Whitespace _ => true
  | _ => false

/-- Models the check ttype is Keyword combined with a case-insensitive
comparison of the value, as in token.ttype is Keyword and
token.value.upper() equals the given word. -/
def isKeywordVal (t : Token) (v : String) : Bool :=
  match t with
  | .atom .Keyword w => decide (upperString w = v)
  | _ => false

/-- Keyword whose upper-cased value is one of the given words. -/
def isKeywordInVals (t : Token) (vs : List String) : Bool :=
  vs.any fun v => isKeywordVal t v

/-- Models the check ttype is DML with a case-insensitive value
comparison. -/
def isDmlVal (t : Token) (v : String) : Bool :=
  match t with
  | .atom .DML w => decide (upperString w = v)
  | _ => false

/-- Models token.match(Punctuation, comma). -/
def isPunctComma (t : Token) : Bool :=
  match t with
  | .atom .Punctuation v => decide (v = ",")
  | _ => false

/-- Any punctuation leaf, for the check ttype is Punctuation. -/
def isPunct (t : Token) : Bool :=
  match t with
  | .atom .Punctuation _ => true
  | _ => false

/-- Models isinstance(token, Identifier). -/
def isIdent (t : Token) : Bool :=
  match t with
  | .group .Identifier _ => true
  | _ => false

/-- Models isinstance(token, Where). -/
def isWhereGroup (t : Token) : Bool :=
  match t with
  | .group .WhereClause _ => true
  | _ => false

/-- Models isinstance(token, Comparison). -/
def isComparison (t : Token) : Bool :=
  match t with
  | .group .Comparison _ => true
  | _ => false

/-- Models isinstance(token, IdentifierList). -/
def isIdentifierList (t : Token) : Bool :=
  match t with
  | .group .IdentifierList _ => true
  | _ => false

/-- Literal token types, modeling membership in the sqlparse type family
T.Literal. -/
def isLiteralTT : TType → Bool
  | .StrLit => true
  | .NumLit => true
  | _ => false

/-- First token of a list that is not whitespace, together with the rest
of the list after it.  Models the skip-whitespace scanning of
token_first and token_next. -/
def firstNonWs : List Token → Option (Token × List Token)
  | [] => none
  | t :: ts => if t.isWhitespace then firstNonWs ts else some (t, ts)

/-- Index of the first dot punctuation among direct children, modeling
token_next_by(m=(Punctuation, dot)). -/
def dotIdx (ts : List Token) : Option Nat :=
  ts.findIdx? fun t =>
    match t with
    | .atom .Punctuation v => decide (v = ".")
    | _ => false

/-- Index of the first AS keyword among direct children, modeling
token_next_by(m=(Keyword, AS)). -/
def kwAsIdx (ts : List Token) : Option Nat :=
  ts.findIdx? fun t => isKeywordVal t "AS"

/-- Last non-whitespace token strictly before index i, modeling
token_prev(i) with skip_ws=True. -/
def prevNonWs (ts : List Token) (i : Nat) : Option Token :=
  ((ts.take i).reverse).find? fun t => !t.isWhitespace

mutual

/-- Models the body of sqlparse _get_first_name: scan the given tokens in
order, returning the value of the first Name or Wildcard leaf (also a
Keyword leaf when the keywords flag is set), or descending into the first
Identifier or Function group, via get_real_name when the realName flag is
set and get_name otherwise.  The fuel argument makes the mutual recursion
with getRealNameF, getAliasF and getNameF structural. -/
def getFirstNameF : Nat → Bool → Bool → List Token → Option String
  | 0, _, _, _ => none
  | _ + 1, _, _, [] => none
  | n + 1, realName, keywords, t :: rest =>
    match t with
    | .atom tt v =>
      if tt = .Name ∨ tt = .Wildcard ∨ (keywords ∧ tt = .Keyword) then some v
      else getFirstNameF n realName keywords rest
    | .group .Identifier _ =>
      if realName then getRealNameF n t else getNameF n t
    | .group .Function _ =>
      if realName then getRealNameF n t else getNameF n t
    | .group _ _ => getFirstNameF n realName keywords rest

/-- Models NameAliasMixin.get_real_name of sqlparse for Identifier and
Function groups: find a dot among the direct children and return the first
name after it (or among all children when there is no dot, matching the
Python truthiness test on the dot index, which also treats index zero as
absent). -/
def getRealNameF : Nat → Token → Option String
  | 0, _ => none
  | n + 1, t =>
    match t with
    | .group .Identifier ts =>
      (match dotIdx ts with
       | some i => if i = 0 then getFirstNameF n true false ts
                   else getFirstNameF n true false (ts.drop i)
       | none => getFirstNameF n true false ts)
    | .group .Function ts =>
      (match dotIdx ts with
       | some i => if i = 0 then getFirstNameF n true false ts
                   else getFirstNameF n true false (ts.drop i)
       | none => getFirstNameF n true false ts)
    | _ => none

/-- Models NameAliasMixin.get_alias of sqlparse: the first name after an
AS keyword, else, when the group has more than two children and contains
whitespace, the first name scanning the children in reverse; None
otherwise.  Non-Identifier non-Function groups use the TokenList base
method, which returns None. -/
def getAliasF : Nat → Token → Option String
  | 0, _ => none
  | n + 1, t =>
    match t with
    | .group .Identifier ts =>
      (match kwAsIdx ts with
       | some i => getFirstNameF n false true (ts.drop (i + 1))
       | none =>
         if ts.length > 2 ∧ ts.any (fun x => x.isWhitespace) then
           getFirstNameF n false false ts.reverse
         else none)
    | .group .Function ts =>
      (match kwAsIdx ts with
       | some i => getFirstNameF n false true (ts.drop (i + 1))
       | none =>
         if ts.length > 2 ∧ ts.any (fun x => x.isWhitespace) then
           getFirstNameF n false false ts.reverse
         else none)
    | _ => none

/-- Models TokenList.get_name: the alias if any, else the real name. -/
def getNameF : Nat → Token → Option String
  | 0, _ => none
  | n + 1, t =>
    match getAliasF n t with
    | some a => some a
    | none => getRealNameF n t

end

/-- Wrapper for get_real_name with sufficient fuel. -/
def getRealName (t : Token) : Option String :=
  getRealNameF (tsize t) t

/-- Wrapper for get_alias with sufficient fuel. -/
def getAlias (t : Token) : Option String :=
  getAliasF (tsize t) t

/-- Wrapper for get_name with sufficient fuel. -/
def getName (t : Token) : Option String :=
  getNameF (tsize t) t

/-- Models has_alias, which is get_alias() is not None. -/
def hasAlias (t : Token) : Bool :=
  (getAlias t).isSome

/-- Models Python str() applied to an optional name: None prints as the
string None. -/
def optStr : Option String → String
  | some s => s
  | none => "None"

/-- Models TokenList.get_parent_name: the non-whitespace token just before
the first dot, or None when there is no dot. -/
def getParentName (t : Token) : Option String :=
  match t with
  | .atom _ _ => none
  | .group _ ts =>
    match dotIdx ts with
    | none => none
    | some i =>
      match prevNonWs ts i with
      | some p => some (tokenStr p)
      | none => none

/-- Models Statement.get_type of sqlparse 0.4.x: the upper-cased first DML
or DDL keyword; for a statement starting with the CTE keyword WITH, the
DML keyword following the CTE definitions.  Note that this never returns
the string WITH, so the WITH branch of _process_statement in the traced
code is unreachable. -/
def getType (statement : Token) : String :=
  match statement with
  | .atom _ _ => "UNKNOWN"
  | .group _ ts =>
    match firstNonWs ts with
    | none => "UNKNOWN"
    | some (first, rest) =>
      match first with
      | .atom .DML v => upperString v
      | .atom .DDL v => upperString v
      | .atom .CTE _ =>
        (match firstNonWs rest with
         | some (t2, rest2) =>
           (match t2 with
            | .group .Identifier _ =>
              (match firstNonWs rest2 with
               | some (.atom .DML v, _) => upperString v
               | _ => "UNKNOWN")
            | .group .IdentifierList _ =>
              (match firstNonWs rest2 with
               | some (.atom .DML v, _) => upperString v
               | _ => "UNKNOWN")
            | .atom .DML v => upperString v
            | _ => "UNKNOWN")
         | none => "UNKNOWN")
      | _ => "UNKNOWN"

/-- Models IdentifierList.get_identifiers: the children that are neither
whitespace nor comma punctuation. -/
def getIdentifiers (ts : List Token) : List Token :=
  ts.filter fun t => !(t.isWhitespace || isPunctComma t)

/-- Models the scan inside Function.get_parameters over the children of
the trailing parenthesis: an IdentifierList ends the scan with its
identifiers; Function and Identifier groups and literal leaves are
collected. -/
def getParamsLoop : List Token → List Token
  | [] => []
  | t :: ts =>
    match t with
    | .group .IdentifierList sub => getIdentifiers sub
    | .group .Function _ => t :: getParamsLoop ts
    | .group .Identifier _ => t :: getParamsLoop ts
    | .atom tt _ => if isLiteralTT tt then t :: getParamsLoop ts else getParamsLoop ts
    | .group _ _ => getParamsLoop ts

/-- Models Function.get_parameters, which scans the children of the last
child (the argument parenthesis). -/
def getParameters (t : Token) : List Token :=
  match t with
  | .group _ ts =>
    (match ts.getLast? with
     | some (.group .Parenthesis ps) => getParamsLoop ps
     | _ => [])
  | .atom _ _ => []

/-- A column reference, a pair of table name and column name, as the
tracer stores it in its lineage dictionary. -/
abbrev Col := String × String

/-- The lineage graph: the dictionary mapping a target column to the set
of its source columns.  The dictionary is modeled as an association list
in key insertion order, and each value set as a duplicate-free list in
element insertion order; the observations made of it (membership and
per-key sets) agree with the Python dict of sets. -/
abbrev Graph := List (Col × List Col)

/-- Edge membership in the lineage graph: some entry for the target lists
the source. -/
def edgeMem : Graph → Col → Col → Bool
  | [], _, _ => false
  | (k, srcs) :: rest, t, s =>
    (decide (k = t) && decide (s ∈ srcs)) || edgeMem rest t s

/-- Key membership in the lineage graph, modeling the Python test of
target not in self.lineage. -/
def hasKey : Graph → Col → Bool
  | [], _ => false
  | (k, _) :: rest, t => decide (k = t) || hasKey rest t

/-- Adds a source to the entry of an existing key, modeling
self.lineage[target].add(source) on the dict-of-sets. -/
def addToEntry : Graph → Col → Col → Graph
  | [], _, _ => []
  | (k, srcs) :: rest, target, source =>
    if k = target then
      (k, if source ∈ srcs then srcs else srcs ++ [source]) :: rest
    else
      (k, srcs) :: addToEntry rest target source

/-- Models _add_lineage: skip self-referential pairs, create the entry
when the target key is absent, then add the source to the target entry. -/
def addLineage (g : Graph) (target source : Col) : Graph :=
  if target = source then g
  else if hasKey g target then addToEntry g target source
  else g ++ [(target, [source])]

/-- The mutable state of a SQLLineageTracer instance: the lineage dict and
the ctes dict from __init__.  The ctes dict is keyed by the result of
get_real_name, an optional string.  The diag field counts emissions of
logger.error; the only logging in the class is in the except handler of
trace_lineage, which fires only when the Python code raises, and none of
the modeled operations raise, so no modeled path increments it. -/
structure TState where
  lineage : Graph
  ctes : List (Option String × Token)
  diag : Nat

/-- State form of _add_lineage. -/
def addLineageS (st : TState) (target source : Col) : TState :=
  { st with lineage := addLineage st.lineage target source }

/-- Fresh tracer state, modeling SQLLineageTracer.__init__. -/
def initialState : TState :=
  { lineage := [], ctes := [], diag := 0 }

/-- Dict write self.ctes[name] = query: overwrite the existing entry or
append a new one. -/
def ctesInsert (ctes : List (Option String × Token)) (k : Option String)
    (v : Token) : List (Option String × Token) :=
  if ctes.any (fun p => decide (p.1 = k)) then
    ctes.map fun p => if p.1 = k then (p.1, v) else p
  else ctes ++ [(k, v)]

/-- Dict membership test name in self.ctes. -/
def ctesHasKey (ctes : List (Option String × Token)) (k : Option String) : Bool :=
  ctes.any fun p => decide (p.1 = k)

/-- The scan inside the Identifier branch of _extract_source_columns: the
first table of from_tables that equals the parent name, or the first table
outright when the column is unqualified; no match yields no sources. -/
def firstMatching : List String → Option String → String → List Col
  | [], _, _ => []
  | tbl :: rest, parent, nm =>
    if parent = some tbl ∨ parent = none then [(tbl, nm)]
    else firstMatching rest parent nm

/-- Models _extract_source_columns, with fuel for the tree recursion.  An
aliased Identifier recurses into its first child; a plain Identifier
resolves against from_tables; a Function recurses into its parameters; a
Comparison recurses into its first and last child (left and right); any
other group recurses into its non-whitespace non-punctuation children;
leaves contribute nothing. -/
def extractSourceColumnsF : Nat → Token → List String → List Col
  | 0, _, _ => []
  | n + 1, expr, fromTables =>
    match expr with
    | .group .Identifier sub =>
      if hasAlias expr then
        (match sub with
         | e0 :: _ => extractSourceColumnsF n e0 fromTables
         | [] => [])
      else
        firstMatching fromTables (getParentName expr) (optStr (getRealName expr))
    | .group .Function _ =>
      (getParameters expr).foldl
        (fun acc a => acc ++ extractSourceColumnsF n a fromTables) []
    | .group .Comparison sub =>
      (match sub.head? with
       | some l => extractSourceColumnsF n l fromTables
       | none => []) ++
      (match sub.getLast? with
       | some r => extractSourceColumnsF n r fromTables
       | none => [])
    | .group _ sub =>
      (sub.filter fun t => !(t.isWhitespace || isPunct t)).foldl
        (fun acc t => acc ++ extractSourceColumnsF n t fromTables) []
    | .atom _ _ => []

/-- Wrapper for _extract_source_columns with sufficient fuel. -/
def extractSourceColumns (expr : Token) (fromTables : List String) : List Col :=
  extractSourceColumnsF (tsize expr) expr fromTables

/-- Models _get_table_name: the alias when present; otherwise the real
name, whether or not it is a registered CTE name (the two branches of the
Python function return the same value, so no CTE dereferencing happens);
the string None when the identifier has no name at all. -/
def getTableName (ctes : List (Option String × Token)) (identifier : Token) : String :=
  match getAlias identifier with
  | some a => a
  | none =>
    if ctesHasKey ctes (getRealName identifier) then
      optStr (getRealName identifier)
    else
      optStr (getRealName identifier)

/-- Loop of _get_from_tables: after a FROM keyword, collect table names
from Identifier and IdentifierList children; stop at a WHERE, GROUP,
HAVING or ORDER keyword. -/
def getFromTablesLoop (ctes : List (Option String × Token)) :
    Bool → List Token → List String
  | _, [] => []
  | fromSeen, t :: ts =>
    let here : List String :=
      if fromSeen then
        match t with
        | .group .IdentifierList sub =>
          (getIdentifiers sub).map fun identifier => getTableName ctes identifier
        | .group .Identifier _ => [getTableName ctes t]
        | _ => []
      else []
    let fromSeen2 := fromSeen || isKeywordVal t "FROM"
    if isKeywordInVals t ["WHERE", "GROUP", "HAVING", "ORDER"] then here
    else here ++ getFromTablesLoop ctes fromSeen2 ts

/-- Models _get_from_tables. -/
def getFromTables (ctes : List (Option String × Token)) (statement : Token) :
    List String :=
  getFromTablesLoop ctes false (tokensOf statement)

/-- One entry of the select list as _parse_select_item builds it. -/
structure SelectItem where
  name : String
  aliasName : Option String
  expr : Token

/-- Models _parse_select_item. -/
def parseSelectItem (item : Token) : SelectItem :=
  match getAlias item with
  | some a => { name := optStr (getRealName item), aliasName := some a, expr := item }
  | none => { name := optStr (getRealName item), aliasName := none, expr := item }

/-- Loop of _get_select_items: after the SELECT keyword, collect items
from Identifier and IdentifierList children and wildcard leaves; stop at a
FROM or WHERE keyword. -/
def getSelectItemsLoop : Bool → List Token → List SelectItem
  | _, [] => []
  | seen, t :: ts =>
    let here : List SelectItem :=
      if seen then
        match t with
        | .group .IdentifierList sub => (getIdentifiers sub).map parseSelectItem
        | .group .Identifier _ => [parseSelectItem t]
        | .atom .Wildcard _ => [{ name := "*", aliasName := none, expr := t }]
        | _ => []
      else []
    let seen2 := seen || isDmlVal t "SELECT"
    if isKeywordInVals t ["FROM", "WHERE"] then here
    else here ++ getSelectItemsLoop seen2 ts

/-- Models _get_select_items. -/
def getSelectItems (statement : Token) : List SelectItem :=
  getSelectItemsLoop false (tokensOf statement)

/-- Models _get_insert_target_table: the stringified last child of the
first Function child named INTO, with unknown_table as the fallback. -/
def getInsertTargetTable (statement : Token) : String :=
  match (tokensOf statement).find? (fun t =>
    match t with
    | .group .Function _ =>
      (match getName t with
       | some nm => decide (upperString nm = "INTO")
       | none => false)
    | _ => false) with
  | some t =>
    (match (tokensOf t).getLast? with
     | some last => tokenStr last
     | none => "unknown_table")
  | none => "unknown_table"

/-- Loop of _get_insert_columns: the first Function child named INTO whose
last child is an Identifier yields the stringified Identifier children of
that last child. -/
def getInsertColumnsLoop : List Token → List String
  | [] => []
  | t :: ts =>
    match t with
    | .group .Function sub =>
      if (match getName t with
          | some nm => decide (upperString nm = "INTO")
          | none => false) then
        match sub.getLast? with
        | some (.group .Identifier innerTs) =>
          (innerTs.filter isIdent).map tokenStr
        | _ => getInsertColumnsLoop ts
      else getInsertColumnsLoop ts
    | _ => getInsertColumnsLoop ts

/-- Models _get_insert_columns. -/
def getInsertColumns (statement : Token) : List String :=
  getInsertColumnsLoop (tokensOf statement)

/-- Models _get_insert_select and _get_create_select: the first
IdentifierList child whose first token is the SELECT DML keyword. -/
def getEmbeddedSelect (statement : Token) : Option Token :=
  (tokensOf statement).find? fun t =>
    match t with
    | .group .IdentifierList (first :: _) => isDmlVal first "SELECT"
    | _ => false

/-- Models _get_update_target_table: the stringified token right after the
first plain Keyword UPDATE.  In sqlparse the UPDATE token has type
Keyword.DML, not Keyword, so the scan never matches and the result is
always unknown_table. -/
def getUpdateTargetTable (statement : Token) : String :=
  let ts := tokensOf statement
  match ts.findIdx? (fun t => isKeywordVal t "UPDATE") with
  | some i =>
    (match ts[i + 1]? with
     | some nxt => tokenStr nxt
     | none => "unknown_table")
  | none => "unknown_table"

/-- One SET assignment as _get_update_set_items builds it. -/
structure SetItem where
  column : String
  value : Token

/-- Comparisons among the identifiers of an IdentifierList, turned into
set items from their first child (left) and last child (right). -/
def setItemsOf (sub : List Token) : List SetItem :=
  (getIdentifiers sub).filterMap fun identifier =>
    match identifier with
    | .group .Comparison csub =>
      (match csub.head?, csub.getLast? with
       | some l, some r => some { column := tokenStr l, value := r }
       | _, _ => none)
    | _ => none

/-- Loop of _get_update_set_items: after the SET keyword, collect
Comparison identifiers out of IdentifierList children; stop at a WHERE
keyword. -/
def getUpdateSetItemsLoop : Bool → List Token → List SetItem
  | _, [] => []
  | seen, t :: ts =>
    let here : List SetItem :=
      if seen then
        match t with
        | .group .IdentifierList sub => setItemsOf sub
        | _ => []
      else []
    let seen2 := seen || isKeywordVal t "SET"
    if isKeywordVal t "WHERE" then here
    else here ++ getUpdateSetItemsLoop seen2 ts

/-- Models _get_update_set_items. -/
def getUpdateSetItems (statement : Token) : List SetItem :=
  getUpdateSetItemsLoop false (tokensOf statement)

/-- Loop of _get_delete_target_table: the stringified first Identifier
child after a FROM keyword, with unknown_table as the fallback. -/
def getDeleteTargetTableLoop : Bool → List Token → String
  | _, [] => "unknown_table"
  | fromSeen, t :: ts =>
    if fromSeen ∧ isIdent t then tokenStr t
    else getDeleteTargetTableLoop (fromSeen || isKeywordVal t "FROM") ts

/-- Models _get_delete_target_table. -/
def getDeleteTargetTable (statement : Token) : String :=
  getDeleteTargetTableLoop false (tokensOf statement)

/-- Models _get_create_target_table: the stringified first Identifier
child. -/
def getCreateTargetTable (statement : Token) : String :=
  match (tokensOf statement).find? isIdent with
  | some t => tokenStr t
  | none => "unknown_table"

/-- The edge insertions that _process_joins and _process_condition both
perform for one Comparison token: for every left source l (from the first
child, Comparison.left) and right source r (from the last child,
Comparison.right) resolved against the target table alone, add the edge
(target, column of l) from r and the edge (target, column of r) from l. -/
def comparisonPairs (st : TState) (t : Token) (targetTable : String) : TState :=
  let leftSources :=
    match (tokensOf t).head? with
    | some l => extractSourceColumns l [targetTable]
    | none => []
  let rightSources :=
    match (tokensOf t).getLast? with
    | some r => extractSourceColumns r [targetTable]
    | none => []
  leftSources.foldl (fun s l =>
    rightSources.foldl (fun s2 r =>
      addLineageS (addLineageS s2 (targetTable, l.2) r) (targetTable, r.2) l) s) st

/-- Models _process_condition, with fuel for the tree recursion: a
Comparison contributes its pairwise left and right edges; any other group
recurses into its Comparison children; leaves (including a bare keyword or
an absent clause) contribute nothing. -/
def processConditionF : Nat → TState → Token → String → TState
  | 0, st, _, _ => st
  | n + 1, st, condition, targetTable =>
    match condition with
    | .group .Comparison _ => comparisonPairs st condition targetTable
    | .group _ sub =>
      sub.foldl (fun s t =>
        if isComparison t then processConditionF n s t targetTable else s) st
    | .atom _ _ => st

/-- Wrapper for _process_condition with sufficient fuel. -/
def processCondition (st : TState) (condition : Token) (targetTable : String) :
    TState :=
  processConditionF (tsize condition) st condition targetTable

/-- Models _process_where: find the first Where group among the direct
children (token_next_by(i=Where)) and process it as a condition.  When
there is none, the Python code passes None to _process_condition, which
then does nothing. -/
def processWhere (st : TState) (statement : Token) (targetTable : String) :
    TState :=
  match (tokensOf statement).find? isWhereGroup with
  | some w => processCondition st w targetTable
  | none => st

/-- Loop of _process_joins: after a JOIN keyword, every Comparison child
contributes the pairwise edges of its left and right sources under the
target-table scope; stop at a WHERE, GROUP BY, HAVING or ORDER BY
keyword. -/
def processJoinsLoop : TState → Bool → List Token → String → TState
  | st, _, [], _ => st
  | st, joinSeen, t :: ts, targetTable =>
    let st1 :=
      if joinSeen && isComparison t then comparisonPairs st t targetTable
      else st
    let joinSeen2 := joinSeen ||
      isKeywordInVals t ["JOIN", "INNER JOIN", "LEFT JOIN", "RIGHT JOIN", "FULL JOIN"]
    if isKeywordInVals t ["WHERE", "GROUP BY", "HAVING", "ORDER BY"] then st1
    else processJoinsLoop st1 joinSeen2 ts targetTable

/-- Models _process_joins. -/
def processJoins (st : TState) (statement : Token) (targetTable : String) :
    TState :=
  processJoinsLoop st false (tokensOf statement) targetTable

/-- Loop of _process_group_by: after a GROUP BY keyword, for every
identifier of an IdentifierList child, add an edge from each of its
sources into the stringified identifier under the target table; stop at a
HAVING or ORDER BY keyword. -/
def processGroupByLoop : TState → Bool → List Token → String → TState
  | st, _, [], _ => st
  | st, seen, t :: ts, targetTable =>
    let st1 :=
      if seen && isIdentifierList t then
        (getIdentifiers (tokensOf t)).foldl (fun s identifier =>
          (extractSourceColumns identifier [targetTable]).foldl
            (fun s2 source =>
              addLineageS s2 (targetTable, tokenStr identifier) source) s) st
      else st
    let seen2 := seen || isKeywordVal t "GROUP BY"
    if isKeywordInVals t ["HAVING", "ORDER BY"] then st1
    else processGroupByLoop st1 seen2 ts targetTable

/-- Models _process_group_by. -/
def processGroupBy (st : TState) (statement : Token) (targetTable : String) :
    TState :=
  processGroupByLoop st false (tokensOf statement) targetTable

/-- Models _process_having: token_next_by(m=(Keyword, HAVING)) finds the
HAVING keyword leaf itself, which _process_condition then ignores, so this
never adds an edge; it is embedded as written. -/
def processHaving (st : TState) (statement : Token) (targetTable : String) :
    TState :=
  match (tokensOf statement).find? (fun t => isKeywordVal t "HAVING") with
  | some k => processCondition st k targetTable
  | none => st

/-- Models _process_select: for each select item, add an edge into
(target table, alias or name) from every source of the item expression
resolved against the FROM tables; then process joins, the WHERE clause,
GROUP BY and HAVING against the same target table. -/
def processSelect (st : TState) (statement : Token) (targetTable : String) :
    TState :=
  let fromTables := getFromTables st.ctes statement
  let selectItems := getSelectItems statement
  let st1 := selectItems.foldl (fun s item =>
    let targetColumn :=
      match item.aliasName with
      | some a => a
      | none => item.name
    (extractSourceColumns item.expr fromTables).foldl
      (fun s2 source => addLineageS s2 (targetTable, targetColumn) source) s) st
  let st2 := processJoins st1 statement targetTable
  let st3 := processWhere st2 statement targetTable
  let st4 := processGroupBy st3 statement targetTable
  processHaving st4 statement targetTable

/-- Models _process_insert: zip the destination columns with the embedded
select items and add an edge into (insert target, column) from every
source of the matched item. -/
def processInsert (st : TState) (statement : Token) : TState :=
  let targetTable := getInsertTargetTable statement
  let targetColumns := getInsertColumns statement
  match getEmbeddedSelect statement with
  | some selectStatement =>
    let selectItems := getSelectItems selectStatement
    (targetColumns.zip selectItems).foldl (fun s pair =>
      (extractSourceColumns pair.2.expr (getFromTables s.ctes selectStatement)).foldl
        (fun s2 source => addLineageS s2 (targetTable, pair.1) source) s) st
  | none => st

/-- Models _process_update: for each SET assignment, add an edge into
(update target, column) from every source of the assigned value resolved
against the update target alone; then process the WHERE clause. -/
def processUpdate (st : TState) (statement : Token) : TState :=
  let targetTable := getUpdateTargetTable statement
  let setItems := getUpdateSetItems statement
  let st1 := setItems.foldl (fun s item =>
    (extractSourceColumns item.value [targetTable]).foldl
      (fun s2 source => addLineageS s2 (targetTable, item.column) source) s) st
  processWhere st1 statement targetTable

/-- Models _process_delete: only the WHERE clause is processed, against
the deleted table as target. -/
def processDelete (st : TState) (statement : Token) : TState :=
  let targetTable := getDeleteTargetTable statement
  processWhere st statement targetTable

/-- Models _process_create: process the embedded select with the created
table as target. -/
def processCreate (st : TState) (statement : Token) : TState :=
  let targetTable := getCreateTargetTable statement
  match getEmbeddedSelect statement with
  | some sel => processSelect st sel targetTable
  | none => st

/-- The CTE registration fold of _process_with: every Identifier child is
registered as a CTE keyed by its real name, with its last child as the
stored subquery. -/
def registerCtes (st : TState) (statement : Token) : TState :=
  (tokensOf statement).foldl (fun s t =>
    if isIdent t then
      match (tokensOf t).getLast? with
      | some cteQuery => { s with ctes := ctesInsert s.ctes (getRealName t) cteQuery }
      | none => s
    else s) st

mutual

/-- Models _process_statement: dispatch on get_type.  The WITH branch is
kept as written although get_type never returns WITH.  Fuel makes the
mutual recursion with _process_with structural. -/
def processStatementF : Nat → TState → Token → TState
  | 0, st, _ => st
  | n + 1, st, statement =>
    let ty := getType statement
    if ty = "WITH" then processWithF n st statement
    else if ty = "SELECT" then processSelect st statement "derived_table"
    else if ty = "INSERT" then processInsert st statement
    else if ty = "UPDATE" then processUpdate st statement
    else if ty = "DELETE" then processDelete st statement
    else if ty = "CREATE" then processCreate st statement
    else st

/-- Models _process_with: register the CTE definitions, then process the
token found by token_next_by(i=Where) as the main query.  When no Where
group exists the Python code passes None onward and raises; that path is
modeled as a no-op.  This function is unreachable from the dispatcher
because get_type never returns WITH. -/
def processWithF : Nat → TState → Token → TState
  | 0, st, _ => st
  | n + 1, st, statement =>
    let st1 := registerCtes st statement
    match (tokensOf statement).find? isWhereGroup with
    | some mainQuery => processStatementF n st1 mainQuery
    | none => st1

end

/-- Wrapper for _process_statement with sufficient fuel. -/
def processStatement (st : TState) (statement : Token) : TState :=
  processStatementF (tsize statement) st statement

/-- The state after trace_lineage has processed every parsed statement.
Parsing itself is done by the external sqlparse.parse, so the model takes
the list of parsed statements as input. -/
def runTrace (st : TState) (statements : List Token) : TState :=
  statements.foldl processStatement st

/-- Models trace_lineage: process every statement and return self.lineage.
The except branch of the Python method is unreachable here because the
modeled operations are total. -/
def traceLineage (st : TState) (statements : List Token) : Graph :=
  (runTrace st statements).lineage

/-- Whitespace leaf. -/
def wsTok : Token := Token.atom .Whitespace " "

/-- A bare name wrapped in an Identifier group, as sqlparse groups a plain
column or table name. -/
def ident1 (s : String) : Token :=
  Token.group .Identifier [Token.atom .Name s]

/-- The parsed statement SELECT a FROM t. -/
def selectAStmt : Token :=
  Token.group .Statement
    [Token.atom .DML "SELECT", wsTok, ident1 "a", wsTok,
     Token.atom .Keyword "FROM", wsTok, ident1 "t"]

/-- The parsed statement SELECT a, a FROM t. -/
def selectAAStmt : Token :=
  Token.group .Statement
    [Token.atom .DML "SELECT", wsTok,
     Token.group .IdentifierList
       [ident1 "a", Token.atom .Punctuation ",", wsTok, ident1 "a"],
     wsTok, Token.atom .Keyword "FROM", wsTok, ident1 "t"]

/-- The CTE definition c AS (SELECT x FROM t) as sqlparse groups it: an
Identifier whose last child is the parenthesized subquery. -/
def cteIdent : Token :=
  Token.group .Identifier
    [Token.atom .Name "c", wsTok, Token.atom .Keyword "AS", wsTok,
     Token.group .Parenthesis
       [Token.atom .Punctuation "(", Token.atom .DML "SELECT", wsTok,
        ident1 "x", wsTok, Token.atom .Keyword "FROM", wsTok, ident1 "t",
        Token.atom .Punctuation ")"]]

/-- The parsed statement WITH c AS (SELECT x FROM t) SELECT x FROM c. -/
def withStmt : Token :=
  Token.group .Statement
    [Token.atom .CTE "WITH", wsTok, cteIdent, wsTok,
     Token.atom .DML "SELECT", wsTok, ident1 "x", wsTok,
     Token.atom .Keyword "FROM", wsTok, ident1 "c"]

/-- The aliased string literal select item of SELECT a, x AS b FROM t with
a literal in place of a recognizable column expression: its first child is
a string literal leaf, a shape _extract_source_columns does not
recognize. -/
def litAliasIdent : Token :=
  Token.group .Identifier
    [Token.atom .StrLit "x", wsTok, Token.atom .Keyword "AS", wsTok,
     Token.atom .Name "b"]

/-- A parsed SELECT with one ordinary column a and one select item whose
expression shape is unrecognized (a quoted literal aliased as b). -/
def selectLitStmt : Token :=
  Token.group .Statement
    [Token.atom .DML "SELECT", wsTok,
     Token.group .IdentifierList
       [ident1 "a", Token.atom .Punctuation ",", wsTok, litAliasIdent],
     wsTok, Token.atom .Keyword "FROM", wsTok, ident1 "t"]

/-- A comparison between two bare columns, as in a = b. -/
def cmpIdent (l r : String) : Token :=
  Token.group .Comparison
    [ident1 l, wsTok, Token.atom .CompOp "=", wsTok, ident1 r]

/-- The parsed statement UPDATE t SET a = b, c = d WHERE e = f. -/
def updateStmt : Token :=
  Token.group .Statement
    [Token.atom .DML "UPDATE", wsTok, ident1 "t", wsTok,
     Token.atom .Keyword "SET", wsTok,
     Token.group .IdentifierList
       [cmpIdent "a" "b", Token.atom .Punctuation ",", wsTok, cmpIdent "c" "d"],
     wsTok,
     Token.group .WhereClause
       [Token.atom .Keyword "WHERE", wsTok, cmpIdent "e" "f"]]

/-- The parsed statement DELETE FROM t WHERE a = b. -/
def deleteStmt : Token :=
  Token.group .Statement
    [Token.atom .DML "DELETE", wsTok, Token.atom .Keyword "FROM", wsTok,
     ident1 "t", wsTok,
     Token.group .WhereClause
       [Token.atom .Keyword "WHERE", wsTok, cmpIdent "a" "b"]]

/-- The parsed statement DELETE FROM t WHERE a = 5, whose WHERE comparison
has a literal right side. -/
def deleteLitStmt : Token :=
  Token.group .Statement
    [Token.atom .DML "DELETE", wsTok, Token.atom .Keyword "FROM", wsTok,
     ident1 "t", wsTok,
     Token.group .WhereClause
       [Token.atom .Keyword "WHERE", wsTok,
        Token.group .Comparison
          [ident1 "a", wsTok, Token.atom .CompOp "=", wsTok,
           Token.atom .NumLit "5"]]]

/-- An unqualified bare column x, for the walker claims. -/
def identX : Token := ident1 "x"

/-- Edge membership distributes over appending graphs. -/
theorem edgeMem_append (g h : Graph) (t s : Col) :
    edgeMem (g ++ h) t s = (edgeMem g t s || edgeMem h t s) := by
  induction g with
  | nil => simp [edgeMem]
  | cons p rest ih =>
    obtain ⟨k, srcs⟩ := p
    simp [edgeMem, ih, Bool.or_assoc]

/-- Key membership distributes over appending graphs. -/
theorem hasKey_append (g h : Graph) (t : Col) :
    hasKey (g ++ h) t = (hasKey g t || hasKey h t) := by
  induction g with
  | nil => simp [hasKey]
  | cons p rest ih =>
    obtain ⟨k, srcs⟩ := p
    simp [hasKey, ih, Bool.or_assoc]

/-- Adding a source to an existing entry adds exactly the one edge from
that source to that target, provided the key is present. -/
theorem edgeMem_addToEntry (g : Graph) (t s a b : Col) :
    edgeMem (addToEntry g t s) a b = true ↔
      (edgeMem g a b = true ∨ (a = t ∧ b = s ∧ hasKey g t = true)) := by
  induction g with
  | nil => simp [addToEntry, edgeMem, hasKey]
  | cons p rest ih =>
    obtain ⟨k, srcs⟩ := p
    by_cases hk : k = t
    · subst hk
      by_cases hs : s ∈ srcs
      · simp only [addToEntry, if_pos rfl, if_pos hs, edgeMem, hasKey,
          Bool.or_eq_true, Bool.and_eq_true, decide_eq_true_eq]
        constructor
        · intro h1
          exact Or.inl h1
        · rintro (h1 | ⟨ha, hb, _⟩)
          · exact h1
          · exact Or.inl ⟨ha.symm, by rw [hb]; exact hs⟩
      · simp only [addToEntry, if_pos rfl, if_neg hs, edgeMem, hasKey,
          Bool.or_eq_true, Bool.and_eq_true, decide_eq_true_eq,
          List.mem_append, List.mem_singleton]
        constructor
        · rintro (⟨ha, hb | hb⟩ | h2)
          · exact Or.inl (Or.inl ⟨ha, hb⟩)
          · exact Or.inr ⟨ha.symm, hb, Or.inl trivial⟩
          · exact Or.inl (Or.inr h2)
        · rintro ((⟨ha, hb⟩ | h2) | ⟨ha, hb, _⟩)
          · exact Or.inl ⟨ha, Or.inl hb⟩
          · exact Or.inr h2
          · exact Or.inl ⟨ha.symm, Or.inr hb⟩
    · simp only [addToEntry, if_neg hk, edgeMem, hasKey, Bool.or_eq_true,
        Bool.and_eq_true, decide_eq_true_eq, ih]
      constructor
      · rintro (h1 | h2 | h3)
        · exact Or.inl (Or.inl h1)
        · exact Or.inl (Or.inr h2)
        · exact Or.inr ⟨h3.1, h3.2.1, Or.inr h3.2.2⟩
      · rintro ((h1 | h2) | ⟨ha, hb, hk2 | hk2⟩)
        · exact Or.inl h1
        · exact Or.inr (Or.inl h2)
        · exact absurd hk2 hk
        · exact Or.inr (Or.inr ⟨ha, hb, hk2⟩)

/-- The graph produced by _add_lineage has exactly the old edges plus, when
target and source differ, the new edge. -/
theorem edgeMem_addLineage (g : Graph) (t s a b : Col) :
    edgeMem (addLineage g t s) a b = true ↔
      (edgeMem g a b = true ∨ (t ≠ s ∧ a = t ∧ b = s)) := by
  unfold addLineage
  by_cases hts : t = s
  · simp [hts]
  · rw [if_neg hts]
    by_cases hk : hasKey g t = true
    · rw [if_pos hk, edgeMem_addToEntry]
      simp only [hk, and_true]
      tauto
    · rw [if_neg hk, edgeMem_append]
      simp only [Bool.or_eq_true, edgeMem, Bool.and_eq_true,
        decide_eq_true_eq, List.mem_singleton]
      constructor
      · rintro (h1 | ⟨ha, hb⟩ | h3)
        · exact Or.inl h1
        · exact Or.inr ⟨hts, ha.symm, hb⟩
        · simp [edgeMem] at h3
      · rintro (h1 | ⟨_, ha, hb⟩)
        · exact Or.inl h1
        · exact Or.inr (Or.inl ⟨ha.symm, hb⟩)

/-- Updating an entry does not change which keys are present. -/
theorem hasKey_addToEntry (g : Graph) (t s x : Col) :
    hasKey (addToEntry g t s) x = hasKey g x := by
  induction g with
  | nil => simp [addToEntry]
  | cons p rest ih =>
    obtain ⟨k, srcs⟩ := p
    by_cases hk : k = t
    · subst hk
      by_cases hs : s ∈ srcs <;> simp [addToEntry, hs, hasKey]
    · simp [addToEntry, hk, hasKey, ih]

/-- Updating the same entry with the same source twice is the same as
doing it once. -/
theorem addToEntry_addToEntry (g : Graph) (t s : Col) :
    addToEntry (addToEntry g t s) t s = addToEntry g t s := by
  induction g with
  | nil => simp [addToEntry]
  | cons p rest ih =>
    obtain ⟨k, srcs⟩ := p
    by_cases hk : k = t
    · subst hk
      by_cases hs : s ∈ srcs
      · simp [addToEntry, hs]
      · have hs2 : s ∈ srcs ++ [s] := by simp
        simp [addToEntry, hs, hs2]
    · simp [addToEntry, hk, ih]

/-- When the key is absent from the prefix, updating the appended
singleton entry with its own source changes nothing. -/
theorem addToEntry_append_singleton (g : Graph) (t s : Col)
    (h : hasKey g t = false) :
    addToEntry (g ++ [(t, [s])]) t s = g ++ [(t, [s])] := by
  induction g with
  | nil => simp [addToEntry]
  | cons p rest ih =>
    obtain ⟨k, srcs⟩ := p
    simp only [hasKey, Bool.or_eq_false_iff, decide_eq_false_iff_not] at h
    simp [addToEntry, h.1, ih h.2]

/-- Edge insertion is idempotent: _add_lineage applied twice to the same
pair leaves the graph exactly as one application does. -/
theorem addLineage_idem (g : Graph) (t s : Col) :
    addLineage (addLineage g t s) t s = addLineage g t s := by
  unfold addLineage
  by_cases hts : t = s
  · simp [hts]
  · rw [if_neg hts, if_neg hts]
    by_cases hk : hasKey g t = true
    · rw [if_pos hk, if_pos (by rw [hasKey_addToEntry]; exact hk)]
      exact addToEntry_addToEntry g t s
    · rw [if_neg hk]
      have hk2 : hasKey (g ++ [(t, [s])]) t = true := by
        simp [hasKey_append, hasKey]
      rw [if_pos hk2]
      exact addToEntry_append_singleton g t s (by simpa using hk)

/-- Every edge of the first graph is an edge of the second. -/
def Extends (g h : Graph) : Prop :=
  ∀ t s, edgeMem g t s = true → edgeMem h t s = true

/-- No target column lists itself among its sources. -/
def NoSelf (g : Graph) : Prop :=
  ∀ t, edgeMem g t t = false

/-- A state transition the accumulator can make: edges persist and the
no-self-edge invariant is preserved. -/
def StepOK (st st2 : TState) : Prop :=
  Extends st.lineage st2.lineage ∧ (NoSelf st.lineage → NoSelf st2.lineage)

theorem extends_refl (g : Graph) : Extends g g := fun _ _ h => h

theorem stepOK_refl (st : TState) : StepOK st st :=
  ⟨extends_refl st.lineage, fun h => h⟩

theorem stepOK_trans {a b c : TState} (h1 : StepOK a b) (h2 : StepOK b c) :
    StepOK a c :=
  ⟨fun t s h => h2.1 t s (h1.1 t s h), fun h => h2.2 (h1.2 h)⟩

/-- A single _add_lineage call is a StepOK transition. -/
theorem stepOK_addLineageS (st : TState) (t s : Col) :
    StepOK st (addLineageS st t s) := by
  constructor
  · intro a b h
    exact (edgeMem_addLineage st.lineage t s a b).2 (Or.inl h)
  · intro hns a
    cases h : edgeMem (addLineage st.lineage t s) a a with
    | false => exact h
    | true =>
      rcases (edgeMem_addLineage st.lineage t s a a).1 h with h1 | ⟨hts, ha, hb⟩
      · rw [hns a] at h1; cases h1
      · exact absurd (ha.symm.trans hb) hts

/-- Folding StepOK steps over a list is a StepOK transition. -/
theorem stepOK_foldl {α : Type} (f : TState → α → TState)
    (hf : ∀ s a, StepOK s (f s a)) :
    ∀ (l : List α) (st : TState), StepOK st (l.foldl f st) := by
  intro l
  induction l with
  | nil => intro st; exact stepOK_refl st
  | cons a rest ih =>
    intro st
    exact stepOK_trans (hf st a) (ih (f st a))

/-- The double insertion made for one comparison pair is a StepOK
transition. -/
theorem stepOK_pairStep (tt : String) (s2 : TState) (l r : Col) :
    StepOK s2 (addLineageS (addLineageS s2 (tt, l.2) r) (tt, r.2) l) :=
  stepOK_trans (stepOK_addLineageS s2 (tt, l.2) r)
    (stepOK_addLineageS (addLineageS s2 (tt, l.2) r) (tt, r.2) l)

/-- The nested fold over left and right sources of a comparison is a
StepOK transition. -/
theorem stepOK_pairFold (tt : String) (ls rs : List Col) (st : TState) :
    StepOK st (ls.foldl (fun s l =>
      rs.foldl (fun s2 r =>
        addLineageS (addLineageS s2 (tt, l.2) r) (tt, r.2) l) s) st) := by
  refine stepOK_foldl _ (fun s l => ?_) ls st
  exact stepOK_foldl _ (fun s2 r => stepOK_pairStep tt s2 l r) rs s

/-- The pairwise edge block of a comparison is a StepOK transition. -/
theorem stepOK_comparisonPairs (st : TState) (t : Token) (tt : String) :
    StepOK st (comparisonPairs st t tt) :=
  stepOK_pairFold tt _ _ st

/-- _process_condition is a StepOK transition for every fuel value. -/
theorem stepOK_processConditionF :
    ∀ (n : Nat) (st : TState) (cond : Token) (tt : String),
      StepOK st (processConditionF n st cond tt) := by
  intro n
  induction n with
  | zero => intro st cond tt; exact stepOK_refl st
  | succ n ih =>
    intro st cond tt
    cases cond with
    | atom a v => exact stepOK_refl st
    | group k sub =>
      cases k
      case Comparison =>
        simp only [processConditionF]
        exact stepOK_comparisonPairs st _ tt
      all_goals
        simp only [processConditionF]
      all_goals
        refine stepOK_foldl _ (fun s t => ?_) sub st
      all_goals
        by_cases h : isComparison t = true
      all_goals
        first
        | (rw [if_pos h]; exact ih s t tt)
        | (rw [if_neg h]; exact stepOK_refl s)

/-- A transition that leaves the lineage untouched is a StepOK
transition. -/
theorem stepOK_of_lineage_eq {st st2 : TState} (h : st2.lineage = st.lineage) :
    StepOK st st2 := by
  constructor
  · intro t s hm; rw [h]; exact hm
  · intro hn t; rw [h]; exact hn t

/-- The _process_condition wrapper is a StepOK transition. -/
theorem stepOK_processCondition (st : TState) (cond : Token) (tt : String) :
    StepOK st (processCondition st cond tt) := by
  unfold processCondition
  exact stepOK_processConditionF _ st cond tt

/-- _process_where is a StepOK transition. -/
theorem stepOK_processWhere (st : TState) (stmt : Token) (tt : String) :
    StepOK st (processWhere st stmt tt) := by
  unfold processWhere
  cases (tokensOf stmt).find? isWhereGroup with
  | none => exact stepOK_refl st
  | some w => exact stepOK_processCondition st w tt

/-- _process_having is a StepOK transition. -/
theorem stepOK_processHaving (st : TState) (stmt : Token) (tt : String) :
    StepOK st (processHaving st stmt tt) := by
  unfold processHaving
  cases (tokensOf stmt).find? (fun t => isKeywordVal t "HAVING") with
  | none => exact stepOK_refl st
  | some k => exact stepOK_processCondition st k tt

/-- The loop of _process_joins is a StepOK transition. -/
theorem stepOK_processJoinsLoop :
    ∀ (ts : List Token) (st : TState) (seen : Bool) (tt : String),
      StepOK st (processJoinsLoop st seen ts tt) := by
  intro ts
  induction ts with
  | nil => intro st seen tt; exact stepOK_refl st
  | cons t rest ih =>
    intro st seen tt
    simp only [processJoinsLoop]
    have h1 : StepOK st
        (if seen && isComparison t then comparisonPairs st t tt else st) := by
      by_cases h : (seen && isComparison t) = true
      · rw [if_pos h]; exact stepOK_comparisonPairs st t tt
      · rw [if_neg h]; exact stepOK_refl st
    by_cases h2 : isKeywordInVals t ["WHERE", "GROUP BY", "HAVING", "ORDER BY"] = true
    · rw [if_pos h2]; exact h1
    · rw [if_neg h2]; exact stepOK_trans h1 (ih _ _ tt)

/-- _process_joins is a StepOK transition. -/
theorem stepOK_processJoins (st : TState) (stmt : Token) (tt : String) :
    StepOK st (processJoins st stmt tt) :=
  stepOK_processJoinsLoop (tokensOf stmt) st false tt

/-- The loop of _process_group_by is a StepOK transition. -/
theorem stepOK_processGroupByLoop :
    ∀ (ts : List Token) (st : TState) (seen : Bool) (tt : String),
      StepOK st (processGroupByLoop st seen ts tt) := by
  intro ts
  induction ts with
  | nil => intro st seen tt; exact stepOK_refl st
  | cons t rest ih =>
    intro st seen tt
    simp only [processGroupByLoop]
    have h1 : StepOK st
        (if seen && isIdentifierList t then
          (getIdentifiers (tokensOf t)).foldl (fun s identifier =>
            (extractSourceColumns identifier [tt]).foldl
              (fun s2 source =>
                addLineageS s2 (tt, tokenStr identifier) source) s) st
         else st) := by
      by_cases h : (seen && isIdentifierList t) = true
      · rw [if_pos h]
        refine stepOK_foldl _ (fun s identifier => ?_) _ st
        exact stepOK_foldl _ (fun s2 source => stepOK_addLineageS s2 _ source) _ s
      · rw [if_neg h]; exact stepOK_refl st
    by_cases h2 : isKeywordInVals t ["HAVING", "ORDER BY"] = true
    · rw [if_pos h2]; exact h1
    · rw [if_neg h2]; exact stepOK_trans h1 (ih _ _ tt)

/-- _process_group_by is a StepOK transition. -/
theorem stepOK_processGroupBy (st : TState) (stmt : Token) (tt : String) :
    StepOK st (processGroupBy st stmt tt) :=
  stepOK_processGroupByLoop (tokensOf stmt) st false tt

/-- _process_select is a StepOK transition. -/
theorem stepOK_processSelect (st : TState) (stmt : Token) (tt : String) :
    StepOK st (processSelect st stmt tt) := by
  unfold processSelect
  exact stepOK_trans
    (stepOK_foldl _ (fun s item =>
      stepOK_foldl _ (fun s2 source => stepOK_addLineageS s2 _ source) _ s) _ st)
    (stepOK_trans (stepOK_processJoins _ stmt tt)
      (stepOK_trans (stepOK_processWhere _ stmt tt)
        (stepOK_trans (stepOK_processGroupBy _ stmt tt)
          (stepOK_processHaving _ stmt tt))))

/-- _process_insert is a StepOK transition. -/
theorem stepOK_processInsert (st : TState) (stmt : Token) :
    StepOK st (processInsert st stmt) := by
  unfold processInsert
  cases getEmbeddedSelect stmt with
  | none => exact stepOK_refl st
  | some sel =>
    exact stepOK_foldl _ (fun s pair =>
      stepOK_foldl _ (fun s2 source => stepOK_addLineageS s2 _ source) _ s) _ st

/-- _process_update is a StepOK transition. -/
theorem stepOK_processUpdate (st : TState) (stmt : Token) :
    StepOK st (processUpdate st stmt) := by
  unfold processUpdate
  exact stepOK_trans
    (stepOK_foldl _ (fun s item =>
      stepOK_foldl _ (fun s2 source => stepOK_addLineageS s2 _ source) _ s) _ st)
    (stepOK_processWhere _ stmt _)

/-- _process_delete is a StepOK transition. -/
theorem stepOK_processDelete (st : TState) (stmt : Token) :
    StepOK st (processDelete st stmt) := by
  unfold processDelete
  exact stepOK_processWhere st stmt _

/-- _process_create is a StepOK transition. -/
theorem stepOK_processCreate (st : TState) (stmt : Token) :
    StepOK st (processCreate st stmt) := by
  unfold processCreate
  cases getEmbeddedSelect stmt with
  | none => exact stepOK_refl st
  | some sel => exact stepOK_processSelect st sel _

/-- The CTE registration of _process_with leaves the lineage untouched. -/
theorem registerCtes_lineage (st : TState) (stmt : Token) :
    (registerCtes st stmt).lineage = st.lineage := by
  unfold registerCtes
  generalize tokensOf stmt = l
  induction l generalizing st with
  | nil => rfl
  | cons t rest ih =>
    rw [List.foldl_cons, ih]
    by_cases h : isIdent t = true
    · rw [if_pos h]
      cases (tokensOf t).getLast? <;> rfl
    · rw [if_neg h]

/-- _process_statement and _process_with are StepOK transitions for every
fuel value, proved jointly over the mutual recursion. -/
theorem stepOK_processStatement_mutual :
    ∀ n : Nat,
      (∀ (st : TState) (stmt : Token), StepOK st (processStatementF n st stmt)) ∧
      (∀ (st : TState) (stmt : Token), StepOK st (processWithF n st stmt)) := by
  intro n
  induction n with
  | zero =>
    exact ⟨fun st _ => stepOK_refl st, fun st _ => stepOK_refl st⟩
  | succ n ih =>
    obtain ⟨ihS, ihW⟩ := ih
    constructor
    · intro st stmt
      simp only [processStatementF]
      by_cases h1 : getType stmt = "WITH"
      · rw [if_pos h1]; exact ihW st stmt
      · rw [if_neg h1]
        by_cases h2 : getType stmt = "SELECT"
        · rw [if_pos h2]; exact stepOK_processSelect st stmt _
        · rw [if_neg h2]
          by_cases h3 : getType stmt = "INSERT"
          · rw [if_pos h3]; exact stepOK_processInsert st stmt
          · rw [if_neg h3]
            by_cases h4 : getType stmt = "UPDATE"
            · rw [if_pos h4]; exact stepOK_processUpdate st stmt
            · rw [if_neg h4]
              by_cases h5 : getType stmt = "DELETE"
              · rw [if_pos h5]; exact stepOK_processDelete st stmt
              · rw [if_neg h5]
                by_cases h6 : getType stmt = "CREATE"
                · rw [if_pos h6]; exact stepOK_processCreate st stmt
                · rw [if_neg h6]; exact stepOK_refl st
    · intro st stmt
      simp only [processWithF]
      cases (tokensOf stmt).find? isWhereGroup with
      | none => exact stepOK_of_lineage_eq (registerCtes_lineage st stmt)
      | some mq =>
        exact stepOK_trans (stepOK_of_lineage_eq (registerCtes_lineage st stmt))
          (ihS _ mq)

/-- _process_statement is a StepOK transition for every fuel value. -/
theorem stepOK_processStatementF (n : Nat) (st : TState) (stmt : Token) :
    StepOK st (processStatementF n st stmt) :=
  (stepOK_processStatement_mutual n).1 st stmt

/-- One whole trace_lineage run is a StepOK transition: edges already in
the instance state persist, and the no-self-edge invariant is
preserved. -/
theorem stepOK_runTrace (stmts : List Token) (st : TState) :
    StepOK st (runTrace st stmts) := by
  unfold runTrace
  exact stepOK_foldl _ (fun s a => stepOK_processStatementF (tsize a) s a) stmts st

/-- Claim C1 (confirmed): for every input statement list, no edge of the
lineage graph returned by trace_lineage on a fresh instance relates a
target to itself: _add_lineage refuses target = source pairs, the stored
pairs are exactly the compared ones, and every mutation of the graph goes
through _add_lineage. -/
theorem claim_c1_no_self_edges (stmts : List Token) (t : Col) :
    edgeMem (traceLineage initialState stmts) t t = false := by
  have hns : NoSelf initialState.lineage := fun _ => rfl
  exact (stepOK_runTrace stmts initialState).2 hns t

/-- Claim C2, counterexample: walking the unqualified column x with the
two enclosing tables t1 and t2 yields only the ColumnRef (t1, x); the
claimed fan-out entry (t2, x) is absent, because the loop in
_extract_source_columns returns inside its first iteration. -/
theorem claim_c2_counterexample :
    extractSourceColumns identX ["t1", "t2"] = [("t1", "x")] ∧
    ("t2", "x") ∉ extractSourceColumns identX ["t1", "t2"] :=
  ⟨rfl, by decide⟩

/-- Claim C2 as amended: an unqualified column reference walked with a
non-empty enclosing-table list is attributed to exactly the first
enclosing table, not to every one. -/
theorem claim_c2_amended (sub : List Token) (tbl : String) (rest : List String)
    (h1 : hasAlias (Token.group .Identifier sub) = false)
    (h2 : getParentName (Token.group .Identifier sub) = none) :
    extractSourceColumns (Token.group .Identifier sub) (tbl :: rest) =
      [(tbl, optStr (getRealName (Token.group .Identifier sub)))] := by
  show extractSourceColumnsF (tsize.tsizeList sub + 1) _ _ = _
  simp only [extractSourceColumnsF, h1, Bool.false_eq_true, if_false,
    firstMatching, h2, or_true, if_true]

/-- Claim C2 witness: the amended statement evaluated at the unqualified
column x with enclosing tables t1 and t2. -/
theorem claim_c2_amended_witness :
    hasAlias identX = false ∧ getParentName identX = none ∧
    extractSourceColumns identX ["t1", "t2"] =
      [("t1", optStr (getRealName identX))] :=
  ⟨rfl, rfl, claim_c2_amended [Token.atom .Name "x"] "t1" ["t2"] rfl rfl⟩

/-- Claim C3, counterexample: tracing WITH c AS (SELECT x FROM t)
SELECT x FROM c yields neither the edge t.x into result.x nor t.x into
derived_table.x; the recorded source is c.x, so the CTE qualifier is not
resolved to the base table. -/
theorem claim_c3_counterexample :
    edgeMem (traceLineage initialState [withStmt]) ("result", "x") ("t", "x") = false ∧
    edgeMem (traceLineage initialState [withStmt]) ("derived_table", "x") ("t", "x") = false ∧
    edgeMem (traceLineage initialState [withStmt]) ("derived_table", "x") ("c", "x") = true :=
  ⟨by decide, by decide, by decide⟩

/-- Claim C3 as amended: tracing WITH c AS (SELECT x FROM t) SELECT x
FROM c yields exactly the edge c.x into derived_table.x; the CTE name is
kept as the qualifier (the CTE branch of _get_table_name returns the name
unchanged, and _process_with is unreachable because get_type never
returns WITH). -/
theorem claim_c3_amended :
    traceLineage initialState [withStmt] = [(("derived_table", "x"), [("c", "x")])] := rfl

/-- Claim C4, counterexample: for a SELECT whose second projected item has
an unrecognized expression shape (a quoted literal aliased as b), the
trace still records the edge for the other projected column, but emits
zero diagnostics where the claim requires exactly one. -/
theorem claim_c4_counterexample :
    (runTrace initialState [selectLitStmt]).diag ≠ 1 ∧
    edgeMem (traceLineage initialState [selectLitStmt]) ("derived_table", "a") ("t", "a") = true :=
  ⟨by decide, by decide⟩

/-- Claim C4 as amended: a single unrecognized expression shape does not
abort the trace, contributes no sources, and the graph still has edges for
every other projected column, but no diagnostic is emitted for that node:
the only diagnostic in the code accompanies a whole-trace abort in the
except handler of trace_lineage. -/
theorem claim_c4_amended :
    extractSourceColumns litAliasIdent ["t"] = [] ∧
    (runTrace initialState [selectLitStmt]).diag = 0 ∧
    traceLineage initialState [selectLitStmt] = [(("derived_table", "a"), [("t", "a")])] :=
  ⟨rfl, rfl, rfl⟩

/-- Claim C5, counterexample: tracing SELECT a FROM t records no edge
into a target qualified by result; the synthesized target table of
_process_select is derived_table. -/
theorem claim_c5_counterexample :
    edgeMem (traceLineage initialState [selectAStmt]) ("result", "a") ("t", "a") = false :=
  by decide

/-- Claim C5 as amended: tracing SELECT a FROM t produces exactly one
edge, t.a into derived_table.a, and the graph contains no other edge. -/
theorem claim_c5_amended :
    traceLineage initialState [selectAStmt] = [(("derived_table", "a"), [("t", "a")])] := rfl

/-- Claim C6, counterexample: tracing UPDATE t SET a = b, c = d WHERE
e = f records no edge whose target table is the updated table t, and the
WHERE column e contributes no edge into the assigned column a; yet the
assignment edges do exist, under the fallback table unknown_table. -/
theorem claim_c6_counterexample :
    hasKey (traceLineage initialState [updateStmt]) ("t", "a") = false ∧
    edgeMem (traceLineage initialState [updateStmt])
      ("unknown_table", "a") ("unknown_table", "e") = false ∧
    edgeMem (traceLineage initialState [updateStmt])
      ("unknown_table", "a") ("unknown_table", "b") = true :=
  ⟨by decide, by decide, by decide⟩

/-- Claim C6 as amended: for the UPDATE statement the target table is the
fallback unknown_table, because _get_update_target_table looks for a plain
Keyword UPDATE while sqlparse types UPDATE as DML; each comma-grouped
assignment yields an edge (unknown_table, column) from the sources of its
value resolved against unknown_table; and the WHERE clause yields the two
pairwise edges between its compared columns, not edges into the assigned
columns. -/
theorem claim_c6_amended :
    getUpdateTargetTable updateStmt = "unknown_table" ∧
    traceLineage initialState [updateStmt] =
      [(("unknown_table", "a"), [("unknown_table", "b")]),
       (("unknown_table", "c"), [("unknown_table", "d")]),
       (("unknown_table", "e"), [("unknown_table", "f")]),
       (("unknown_table", "f"), [("unknown_table", "e")])] :=
  ⟨rfl, rfl⟩

/-- Claim C7, counterexample: tracing DELETE FROM t WHERE a = b records
edges, contradicting the claim that a DELETE records none: the WHERE
comparison produces the edge t.b into t.a (and its mirror image). -/
theorem claim_c7_counterexample :
    edgeMem (traceLineage initialState [deleteStmt]) ("t", "a") ("t", "b") = true ∧
    traceLineage initialState [deleteStmt] ≠ [] :=
  ⟨by decide, by decide⟩

/-- Claim C7 as amended: a DELETE records no assignment edges, but a WHERE
comparison between two column references records the two pairwise edges
under the deleted table as target; a WHERE comparison against a literal
records none. -/
theorem claim_c7_amended :
    traceLineage initialState [deleteStmt] =
      [(("t", "a"), [("t", "b")]), (("t", "b"), [("t", "a")])] ∧
    traceLineage initialState [deleteLitStmt] = [] :=
  ⟨rfl, rfl⟩

/-- Claim C8, counterexample: tracing SELECT a, a FROM t yields no edge
into a target qualified by result; the single deduplicated edge targets
derived_table. -/
theorem claim_c8_counterexample :
    edgeMem (traceLineage initialState [selectAAStmt]) ("result", "a") ("t", "a") = false :=
  by decide

/-- Claim C8 as amended: edge insertion is idempotent, adding the same
pair twice leaves the graph equal to adding it once, and consequently
tracing SELECT a, a FROM t yields the single deduplicated edge t.a into
derived_table.a. -/
theorem claim_c8_amended :
    (∀ (g : Graph) (t s : Col), addLineage (addLineage g t s) t s = addLineage g t s) ∧
    traceLineage initialState [selectAAStmt] = [(("derived_table", "a"), [("t", "a")])] :=
  ⟨addLineage_idem, rfl⟩

/-- Claim C9 (confirmed): two fresh engine instances tracing the same
statement list produce identical graphs; the trace is a function of the
instance state and the input alone, and fresh instances share the same
initial state. -/
theorem claim_c9_determinism (s1 s2 : TState) (stmts : List Token)
    (h1 : s1 = initialState) (h2 : s2 = initialState) :
    traceLineage s1 stmts = traceLineage s2 stmts := by
  subst h1; subst h2; rfl

/-- Claim C9 witness: the determinism statement instantiated at two fresh
states and the statement SELECT a FROM t. -/
theorem claim_c9_determinism_witness :
    initialState = initialState ∧
    traceLineage initialState [selectAStmt] = traceLineage initialState [selectAStmt] :=
  ⟨rfl, claim_c9_determinism initialState initialState [selectAStmt] rfl rfl⟩

/-- Claim C10 (confirmed): on one instance, state persists across calls:
trace_lineage returns the instance lineage without resetting it, and a
second call only ever adds edges, so every edge returned by the first call
is still in the graph returned by the second, whatever the two inputs. -/
theorem claim_c10_state_persists (in1 in2 : List Token) (t s : Col)
    (h : edgeMem (traceLineage initialState in1) t s = true) :
    edgeMem (traceLineage (runTrace initialState in1) in2) t s = true :=
  (stepOK_runTrace in2 (runTrace initialState in1)).1 t s h

/-- Claim C10 witness: the edge recorded by tracing SELECT a FROM t is
still present after the same instance then traces DELETE FROM t WHERE
a = b. -/
theorem claim_c10_state_persists_witness :
    edgeMem (traceLineage initialState [selectAStmt]) ("derived_table", "a") ("t", "a") = true ∧
    edgeMem (traceLineage (runTrace initialState [selectAStmt]) [deleteStmt])
      ("derived_table", "a") ("t", "a") = true :=
  ⟨by decide, claim_c10_state_persists [selectAStmt] [deleteStmt] _ _ (by decide)⟩
